import Mathlib

/-!
Shallow embedding of the core of the `Claro_Services_SF` service monitor:
the Configuration Resolver (`src/config`, `processEnvironmentVariables`) and
the Response Validator (`src/services/rest/index.ts`, `src/services/soap/index.ts`),
together with the batch-summary assembly of `src/services/index.ts`
(`checkAllServices`).

JSON values (the `any`-typed payloads of the TypeScript code) are modelled by
the inductive type `Json`.  JavaScript's `typeof`, truthiness, `Object.keys`,
property lookup and `Array.isArray` are modelled explicitly.  JavaScript
objects have unique keys; association lists here may in principle carry
duplicates, so theorems that depend on key uniqueness carry a `nodupKeysJ`
hypothesis.  Numbers are modelled as integers: none of the embedded logic
inspects numeric values beyond `typeof`, truthiness and equality.
-/

namespace ClaroServices

/-- JSON value, as produced by `JSON.parse` / axios response bodies. -/
inductive Json where
  | null
  | bool (b : Bool)
  | num (n : Int)
  | str (s : String)
  | arr (elems : List Json)
  | obj (fields : List (String × Json))

/-- JavaScript `typeof` on a parsed JSON value (`typeof null = "object"`,
arrays and objects are both `"object"`). -/
def Json.typeOf : Json → String
  | .null => "object"
  | .bool _ => "boolean"
  | .num _ => "number"
  | .str _ => "string"
  | .arr _ => "object"
  | .obj _ => "object"

/-- JavaScript `Array.isArray`. -/
def Json.isArrayJ : Json → Bool
  | .arr _ => true
  | _ => false

/-- JavaScript truthiness of a JSON value (`null`, `false`, `0`, `""` are
falsy; every array and object is truthy). -/
def Json.truthy : Json → Bool
  | .null => false
  | .bool b => b
  | .num n => n != 0
  | .str s => s != ""
  | .arr _ => true
  | .obj _ => true

/-- Property access `o[k]` on a JSON value: defined (`some`) only for object
fields; anything else yields JavaScript `undefined` (`none`). -/
def Json.getField : Json → String → Option Json
  | .obj fields, k => (fields.find? (fun p => p.1 == k)).map (·.2)
  | _, _ => none

/-- Lookup of a key in an object's field list; a missing key yields `null`.
In the embedded algorithms this default is never reached on the paths where
the lookup is performed (the code first establishes that the key is present),
so any default is faithful; `null` keeps the function total. -/
def jlookup (fields : List (String × Json)) (k : String) : Json :=
  match fields.find? (fun p => p.1 == k) with
  | some p => p.2
  | none => Json.null

/-- `hasOwnProperty` on an object's field list. -/
def hasKey (fields : List (String × Json)) (k : String) : Bool :=
  (fields.find? (fun p => p.1 == k)).isSome

/-- The keys of an object, in insertion order (`Object.keys`). -/
def jkeys (fields : List (String × Json)) : List String :=
  fields.map (·.1)

/-- `Array.prototype.sort()` on an array of strings (lexicographic). -/
def sortStr (l : List String) : List String :=
  l.mergeSort (fun a b => a ≤ b)

/-- A list of keys is duplicate-free. -/
def nodupStr : List String → Bool
  | [] => true
  | k :: t => !t.contains k && nodupStr t

mutual
/-- Keys of every object inside a JSON tree are duplicate-free, as they are
for real JavaScript objects. -/
def nodupKeysJ : Json → Bool
  | .arr elems => nodupKeysList elems
  | .obj fields => nodupStr (jkeys fields) && nodupKeysFields fields
  | _ => true

def nodupKeysList : List Json → Bool
  | [] => true
  | e :: t => nodupKeysJ e && nodupKeysList t

def nodupKeysFields : List (String × Json) → Bool
  | [] => true
  | p :: t => nodupKeysJ p.2 && nodupKeysFields t
end

/-- Helper lemmas for the lexicographic termination measures below. -/
theorem lexRightAux {α β : Type} {r : α → α → Prop} {s : β → β → Prop} {a : α} {m n : β}
    (h : s m n) : Prod.Lex r s (a, m) (a, n) :=
  Prod.Lex.right a h

theorem lexLookupAux {a b c d n : Nat} (h1 : a ≤ c) (h2 : b ≤ d) (hn : 0 < n) :
    Prod.Lex (fun x y : Nat => x < y) (fun x y : Nat => x < y) (a + b, 0) (c + d, n) := by
  rcases Nat.lt_or_ge (a + b) (c + d) with h | h
  · exact Prod.Lex.left _ _ h
  · have heq : a + b = c + d := by omega
    rw [heq]
    exact Prod.Lex.right _ hn

theorem lexLookupAux1 {a c n : Nat} (h1 : a ≤ c) (hn : 0 < n) :
    Prod.Lex (fun x y : Nat => x < y) (fun x y : Nat => x < y) (a, 0) (c, n) := by
  rcases Nat.lt_or_ge a c with h | h
  · exact Prod.Lex.left _ _ h
  · have heq : a = c := by omega
    rw [heq]
    exact Prod.Lex.right _ hn

theorem sizeOf_jlookup_le (fields : List (String × Json)) (k : String) :
    sizeOf (jlookup fields k) ≤ sizeOf fields := by
  induction fields with
  | nil => simp [jlookup, List.find?]
  | cons p t ih =>
    obtain ⟨a, b⟩ := p
    by_cases h : a == k
    · simp [jlookup, List.find?, h]
      omega
    · simp only [jlookup, List.find?, h] at ih ⊢
      simp only [List.cons.sizeOf_spec]
      omega

/-! ### Strategy 1 — structure comparison (`compareStructure`, rest/index.ts 221–242)

The source first rejects on `typeof` mismatch, then handles `null`
(`obj1 === null || obj2 === null → obj1 === obj2`), accepts any remaining
non-`object` pair, rejects on `Array.isArray` mismatch, compares arrays by
length and element-wise recursion, and compares objects by equality of their
sorted key arrays followed by recursion per key.  The match arms below
enumerate the same case split by constructor. -/

mutual
def compareStructure : Json → Json → Bool
  | .null, .null => true
  | .null, .arr _ => false
  | .null, .obj _ => false
  | .arr _, .null => false
  | .obj _, .null => false
  | .arr xs, .arr ys => xs.length == ys.length && compareStructureElems xs ys
  | .obj xs, .obj ys =>
      sortStr (jkeys xs) == sortStr (jkeys ys)
        && compareStructureKeys (sortStr (jkeys xs)) xs ys
  | .arr _, .obj _ => false
  | .obj _, .arr _ => false
  | a, b => a.typeOf == b.typeOf
termination_by a b => (sizeOf a + sizeOf b, 0)
decreasing_by
  all_goals simp_wf
  all_goals
    first
    | (apply Prod.Lex.left; omega)
    | (apply lexRightAux; omega)
    | (apply lexLookupAux (sizeOf_jlookup_le _ _) (sizeOf_jlookup_le _ _); omega)
    | (apply lexLookupAux1 (sizeOf_slookup_le _ _); omega)

/-- `obj1.every((item, index) => compareStructure(item, obj2[index]))`,
run after the length check. -/
def compareStructureElems : List Json → List Json → Bool
  | x :: xs, y :: ys => compareStructure x y && compareStructureElems xs ys
  | _, _ => true
termination_by xs ys => (sizeOf xs + sizeOf ys, 0)
decreasing_by
  all_goals simp_wf
  all_goals
    first
    | (apply Prod.Lex.left; omega)
    | (apply lexRightAux; omega)
    | (apply lexLookupAux (sizeOf_jlookup_le _ _) (sizeOf_jlookup_le _ _); omega)
    | (apply lexLookupAux1 (sizeOf_slookup_le _ _); omega)

/-- `keys1.every(key => compareStructure(obj1[key], obj2[key]))`. -/
def compareStructureKeys : List String → List (String × Json) → List (String × Json) → Bool
  | [], _, _ => true
  | k :: ks, xs, ys =>
      compareStructure (jlookup xs k) (jlookup ys k) && compareStructureKeys ks xs ys
termination_by ks xs ys => (sizeOf xs + sizeOf ys, sizeOf ks)
decreasing_by
  all_goals simp_wf
  all_goals
    first
    | (apply Prod.Lex.left; omega)
    | (apply lexRightAux; omega)
    | (apply lexLookupAux (sizeOf_jlookup_le _ _) (sizeOf_jlookup_le _ _); omega)
    | (apply lexLookupAux1 (sizeOf_slookup_le _ _); omega)
end

/-! ### Strategy 2 — schema validation (`generateSchema` / `validateSchema`,
rest/index.ts 245–287) -/

/-- The basic JSON-schema values produced by `generateSchema` and consumed by
`validateSchema`: `{type:'null'}`, `{type:'array', items}`,
`{type:'object', properties, required}` and `{type: <string>}` (the latter
covering `'boolean'`, `'number'`, `'string'` and `'any'`). -/
inductive Schema where
  | nullS
  | arrS (items : Schema)
  | objS (properties : List (String × Schema)) (required : List String)
  | primS (t : String)

/-- `schema.properties[key]`; the default is never reached on paths guarded
by `sHasKey` (`schema.properties[key] && …`). -/
def slookup (props : List (String × Schema)) (k : String) : Schema :=
  match props.find? (fun p => p.1 == k) with
  | some p => p.2
  | none => Schema.nullS

/-- Truthiness of `schema.properties[key]` (a schema object is truthy,
`undefined` is falsy). -/
def sHasKey (props : List (String × Schema)) (k : String) : Bool :=
  (props.find? (fun p => p.1 == k)).isSome

theorem sizeOf_slookup_le (props : List (String × Schema)) (k : String) :
    sizeOf (slookup props k) ≤ sizeOf props := by
  induction props with
  | nil => simp [slookup, List.find?]
  | cons p t ih =>
    obtain ⟨a, b⟩ := p
    by_cases h : a == k
    · simp [slookup, List.find?, h]
      omega
    · simp only [slookup, List.find?, h] at ih ⊢
      simp only [List.cons.sizeOf_spec]
      omega

mutual
def generateSchema : Json → Schema
  | .null => .nullS
  | .arr [] => .arrS (.primS "any")
  | .arr (e :: _) => .arrS (generateSchema e)
  | .obj fields => .objS (generateSchemaFields fields) (jkeys fields)
  | a => .primS a.typeOf

def generateSchemaFields : List (String × Json) → List (String × Schema)
  | [] => []
  | (k, v) :: t => (k, generateSchema v) :: generateSchemaFields t
end

mutual
def validateSchema (j : Json) : Schema → Bool
  | .nullS => (match j with | .null => true | _ => false)
  | .arrS items =>
      (match j with
       | .arr elems => validateSchemaElems elems items
       | _ => false)
  | .objS props required =>
      (match j with
       | .obj fields =>
           required.all (fun k => hasKey fields k)
             && (jkeys fields).length == props.length
             && validateSchemaKeys (jkeys fields) fields props
       | _ => false)
  | .primS t => j.typeOf == t
termination_by s => (sizeOf s, 0)
decreasing_by
  all_goals simp_wf
  all_goals
    first
    | (apply Prod.Lex.left; omega)
    | (apply lexRightAux; omega)
    | (apply lexLookupAux (sizeOf_jlookup_le _ _) (sizeOf_jlookup_le _ _); omega)
    | (apply lexLookupAux1 (sizeOf_slookup_le _ _); omega)

/-- `obj.every(item => validateSchema(item, schema.items))`. -/
def validateSchemaElems : List Json → Schema → Bool
  | [], _ => true
  | e :: t, s => validateSchema e s && validateSchemaElems t s
termination_by l s => (sizeOf s, 1 + sizeOf l)
decreasing_by
  all_goals simp_wf
  all_goals
    first
    | (apply Prod.Lex.left; omega)
    | (apply lexRightAux; omega)
    | (apply lexLookupAux (sizeOf_jlookup_le _ _) (sizeOf_jlookup_le _ _); omega)
    | (apply lexLookupAux1 (sizeOf_slookup_le _ _); omega)

/-- `objKeys.every(key => schema.properties[key] && validateSchema(obj[key],
schema.properties[key]))`. -/
def validateSchemaKeys : List String → List (String × Json) → List (String × Schema) → Bool
  | [], _, _ => true
  | k :: ks, fields, props =>
      (sHasKey props k && validateSchema (jlookup fields k) (slookup props k))
        && validateSchemaKeys ks fields props
termination_by ks fields props => (sizeOf props, sizeOf ks)
decreasing_by
  all_goals simp_wf
  all_goals
    first
    | (apply Prod.Lex.left; omega)
    | (apply lexRightAux; omega)
    | (apply lexLookupAux (sizeOf_jlookup_le _ _) (sizeOf_jlookup_le _ _); omega)
    | (apply lexLookupAux1 (sizeOf_slookup_le _ _); omega)
end

/-! ### Strategy 3 — pattern matching (`createPattern` / `matchesPattern`,
rest/index.ts 290–328)

Patterns are ordinary JavaScript values: the wildcard is the string `'*'`,
so `createPattern : Json → Json` and the pattern argument of `matchesPattern`
is a `Json`. -/

mutual
def createPattern : Json → Json
  | .null => .null
  | .arr elems => .arr (elems.map (fun _ => Json.str "*"))
  | .obj fields => .obj (createPatternFields fields)
  | _ => .str "*"

def createPatternFields : List (String × Json) → List (String × Json)
  | [] => []
  | (k, v) :: t => (k, createPattern v) :: createPatternFields t
end

mutual
def matchesPattern : Json → Json → Bool
  | _, .str "*" => true
  | o, .null => (match o with | .null => true | _ => false)
  | o, .arr ps =>
      (match o with
       | .arr os => os.length == ps.length && matchesPatternElems os ps
       | _ => false)
  | o, .obj pfs =>
      (match o with
       | .obj ofs =>
           sortStr (jkeys pfs) == sortStr (jkeys ofs)
             && matchesPatternKeys (sortStr (jkeys pfs)) ofs pfs
       | _ => false)
  | .bool b, .bool b' => b == b'
  | .num n, .num n' => n == n'
  | .str s, .str s' => s == s'
  | _, _ => false
termination_by o p => (sizeOf o + sizeOf p, 0)
decreasing_by
  all_goals simp_wf
  all_goals
    first
    | (apply Prod.Lex.left; omega)
    | (apply lexRightAux; omega)
    | (apply lexLookupAux (sizeOf_jlookup_le _ _) (sizeOf_jlookup_le _ _); omega)
    | (apply lexLookupAux1 (sizeOf_slookup_le _ _); omega)

/-- `obj.every((item, index) => matchesPattern(item, pattern[index]))`. -/
def matchesPatternElems : List Json → List Json → Bool
  | o :: os, p :: ps => matchesPattern o p && matchesPatternElems os ps
  | _, _ => true
termination_by os ps => (sizeOf os + sizeOf ps, 0)
decreasing_by
  all_goals simp_wf
  all_goals
    first
    | (apply Prod.Lex.left; omega)
    | (apply lexRightAux; omega)
    | (apply lexLookupAux (sizeOf_jlookup_le _ _) (sizeOf_jlookup_le _ _); omega)
    | (apply lexLookupAux1 (sizeOf_slookup_le _ _); omega)

/-- `patternKeys.every(key => matchesPattern(obj[key], pattern[key]))`. -/
def matchesPatternKeys : List String → List (String × Json) → List (String × Json) → Bool
  | [], _, _ => true
  | k :: ks, ofs, pfs =>
      matchesPattern (jlookup ofs k) (jlookup pfs k) && matchesPatternKeys ks ofs pfs
termination_by ks ofs pfs => (sizeOf ofs + sizeOf pfs, sizeOf ks)
decreasing_by
  all_goals simp_wf
  all_goals
    first
    | (apply Prod.Lex.left; omega)
    | (apply lexRightAux; omega)
    | (apply lexLookupAux (sizeOf_jlookup_le _ _) (sizeOf_jlookup_le _ _); omega)
    | (apply lexLookupAux1 (sizeOf_slookup_le _ _); omega)
end

/-! ### Strategy 4 — flexible comparison (`compareFlexible`, rest/index.ts
331–387)

The three options are passed explicitly: `iao` = `ignoreArrayOrder`,
`aef` = `allowExtraFields`, `ts` = `typeStrict`.  `validateRestResponse`
calls it with `{typeStrict: false, allowExtraFields: false}` (and
`ignoreArrayOrder` left at its default `false`). -/

mutual
def flexCompare (iao aef ts : Bool) : Json → Json → Bool
  | a, .null => (match a with | .null => true | _ => false)
  | .null, _ => false
  | a, .arr es =>
      (match a with
       | .arr as_ =>
           if iao then
             es.length == as_.length && flexForallExists iao aef ts as_ es
           else
             es.length == as_.length && flexCompareElems iao aef ts as_ es
       | _ => false)
  | a, .obj efs =>
      (match a with
       | .obj afs =>
           (aef || (jkeys efs).length == (jkeys afs).length)
             && flexCompareFields iao aef ts afs efs
       | _ => false)
  | a, e => if ts then a.typeOf == e.typeOf else true
termination_by a e => (sizeOf e, 0)
decreasing_by
  all_goals simp_wf
  all_goals
    first
    | (apply Prod.Lex.left; omega)
    | (apply lexRightAux; omega)
    | (apply lexLookupAux (sizeOf_jlookup_le _ _) (sizeOf_jlookup_le _ _); omega)
    | (apply lexLookupAux1 (sizeOf_slookup_le _ _); omega)

/-- Ordered comparison `expected.every((expectedItem, index) =>
compare(actual[index], expectedItem))`. -/
def flexCompareElems (iao aef ts : Bool) : List Json → List Json → Bool
  | a :: as_, e :: es => flexCompare iao aef ts a e && flexCompareElems iao aef ts as_ es
  | _, _ => true
termination_by as_ es => (sizeOf es, 0)
decreasing_by
  all_goals simp_wf
  all_goals
    first
    | (apply Prod.Lex.left; omega)
    | (apply lexRightAux; omega)
    | (apply lexLookupAux (sizeOf_jlookup_le _ _) (sizeOf_jlookup_le _ _); omega)
    | (apply lexLookupAux1 (sizeOf_slookup_le _ _); omega)

/-- Unordered comparison `expected.every(expectedItem =>
actual.some(actualItem => compare(actualItem, expectedItem)))`. -/
def flexForallExists (iao aef ts : Bool) (as_ : List Json) : List Json → Bool
  | [] => true
  | e :: es => flexExistsMatch iao aef ts as_ e && flexForallExists iao aef ts as_ es
termination_by es => (sizeOf es, 1)
decreasing_by
  all_goals simp_wf
  all_goals
    first
    | (apply Prod.Lex.left; omega)
    | (apply lexRightAux; omega)
    | (apply lexLookupAux (sizeOf_jlookup_le _ _) (sizeOf_jlookup_le _ _); omega)
    | (apply lexLookupAux1 (sizeOf_slookup_le _ _); omega)

def flexExistsMatch (iao aef ts : Bool) : List Json → Json → Bool
  | [], _ => false
  | a :: as_, e => flexCompare iao aef ts a e || flexExistsMatch iao aef ts as_ e
termination_by as_ e => (sizeOf e, 2 + sizeOf as_)
decreasing_by
  all_goals simp_wf
  all_goals
    first
    | (apply Prod.Lex.left; omega)
    | (apply lexRightAux; omega)
    | (apply lexLookupAux (sizeOf_jlookup_le _ _) (sizeOf_jlookup_le _ _); omega)
    | (apply lexLookupAux1 (sizeOf_slookup_le _ _); omega)

/-- `expectedKeys.every(key => actual.hasOwnProperty(key) &&
compare(actual[key], expected[key]))`. -/
def flexCompareFields (iao aef ts : Bool) (afs : List (String × Json)) :
    List (String × Json) → Bool
  | [] => true
  | (k, v) :: efs =>
      (hasKey afs k && flexCompare iao aef ts (jlookup afs k) v)
        && flexCompareFields iao aef ts afs efs
termination_by efs => (sizeOf efs, 0)
decreasing_by
  all_goals simp_wf
  all_goals
    first
    | (apply Prod.Lex.left; omega)
    | (apply lexRightAux; omega)
    | (apply lexLookupAux (sizeOf_jlookup_le _ _) (sizeOf_jlookup_le _ _); omega)
    | (apply lexLookupAux1 (sizeOf_slookup_le _ _); omega)
end

/-! ### The REST validator's strategy loop (`validateRestResponse`,
rest/index.ts 150–217)

Lines 174–212 run the four strategies in a fixed order inside a single
`try` block, returning `true` at the first success; the `catch` at 213–216
returns `false`.  A strategy evaluation is modelled as `Except Unit Bool`:
`.error ()` is a thrown exception, `.ok b` a normal verdict. -/

/-- The body of the `try` block: evaluate strategies in order; a thrown
exception propagates out of the block, a `true` verdict returns immediately,
and the fall-through result (line 211) is `false`. -/
def runStrategies : List (Except Unit Bool) → Except Unit Bool
  | [] => .ok false
  | s :: rest =>
      match s with
      | .error e => .error e
      | .ok true => .ok true
      | .ok false => runStrategies rest

/-- The whole `try … catch` of the content validation: the `catch` clause
turns a thrown exception into the verdict `false`. -/
def tryCatchVerdict (l : List (Except Unit Bool)) : Bool :=
  match runStrategies l with
  | .ok b => b
  | .error _ => false

/-- The four strategy evaluations of `validateRestResponse`, in source order:
structure, schema, pattern, flexible.  In this embedding every strategy is a
total function, so each evaluation is an `.ok` result. -/
def restStrategyResults (expected actual : Json) : List (Except Unit Bool) :=
  [ .ok (compareStructure actual expected),
    .ok (validateSchema actual (generateSchema expected)),
    .ok (matchesPattern actual (createPattern expected)),
    .ok (flexCompare false false false actual expected) ]

/-- Content validation of a REST response against `expectedContent`. -/
def restContentValid (expected actual : Json) : Bool :=
  tryCatchVerdict (restStrategyResults expected actual)

/-- The fields of a REST service configuration consumed by
`validateRestResponse`. -/
structure RestServiceV where
  expectedStatus : Option Int
  expectedContent : Option Json

/-- `validateRestResponse` (rest/index.ts 150–217): status precondition, then
the four-strategy content validation.  Truthiness guards are modelled
exactly: `service.expectedStatus && …` is false for a declared status of `0`,
and `!service.expectedContent` is true for a falsy declared expectation. -/
def validateRestResponse (s : RestServiceV) (status : Int) (data : Json) : Bool :=
  let statusFail :=
    match s.expectedStatus with
    | some es => es != 0 && status != es
    | none => false
  if statusFail then false
  else
    match s.expectedContent with
    | none => true
    | some exp => if exp.truthy then restContentValid exp data else true

/-! ### SOAP response validation (`validateSoapResponse`, soap/index.ts 124–141) -/

/-- One escaped character of `JSON.stringify` string output (quote and
backslash; the rarer control-character escapes are irrelevant to every payload
appearing in this development). -/
def escapeJsonChar (c : Char) : String :=
  if c = '"' then "\\\"" else if c = '\\' then "\\\\" else String.mk [c]

def escapeJsonString (s : String) : String :=
  String.join (s.data.map escapeJsonChar)

mutual
/-- `JSON.stringify` (no spacing), used by the SOAP validator's
`expectedContent` substring check. -/
def jsonStringify : Json → String
  | .null => "null"
  | .bool true => "true"
  | .bool false => "false"
  | .num n => toString n
  | .str s => "\"" ++ escapeJsonString s ++ "\""
  | .arr elems => "[" ++ jsonStringifyElems elems ++ "]"
  | .obj fields => "\x7b" ++ jsonStringifyFields fields ++ "\x7d"
termination_by j => sizeOf j
decreasing_by
  all_goals simp_wf
  all_goals omega

def jsonStringifyElems : List Json → String
  | [] => ""
  | [e] => jsonStringify e
  | e :: rest => jsonStringify e ++ "," ++ jsonStringifyElems rest
termination_by l => sizeOf l
decreasing_by
  all_goals simp_wf
  all_goals omega

def jsonStringifyFields : List (String × Json) → String
  | [] => ""
  | [(k, v)] => "\"" ++ escapeJsonString k ++ "\":" ++ jsonStringify v
  | (k, v) :: rest =>
      "\"" ++ escapeJsonString k ++ "\":" ++ jsonStringify v ++ "," ++ jsonStringifyFields rest
termination_by l => sizeOf l
decreasing_by
  all_goals simp_wf
  all_goals omega
end

/-- Does `hay` begin with `needle`? (character-list version) -/
def charsBeginWith : List Char → List Char → Bool
  | [], _ => true
  | _ :: _, [] => false
  | a :: as_, b :: bs => a == b && charsBeginWith as_ bs

/-- `String.prototype.includes` — `hay` contains `needle` as a substring. -/
def containsChars (needle : List Char) : List Char → Bool
  | [] => charsBeginWith needle []
  | c :: t => charsBeginWith needle (c :: t) || containsChars needle t

def strIncludes (hay needle : String) : Bool :=
  containsChars needle.data hay.data

/-- `String.prototype.startsWith`. -/
def strBeginsWith (s pre : String) : Bool :=
  charsBeginWith pre.data s.data

/-- Truthiness of an optional string value (JavaScript: `undefined` and `""`
are falsy); returns the value only when truthy. -/
def truthyOptStr : Option String → Option String
  | some s => if s = "" then none else some s
  | none => none

/-- Truthiness of `response.K` for a JSON response value. -/
def jsTruthyField (r : Json) (k : String) : Bool :=
  match r.getField k with
  | some v => v.truthy
  | none => false

/-- The field of a SOAP service configuration consumed by
`validateSoapResponse`. -/
structure SoapServiceV where
  expectedContent : Option String

/-- `validateSoapResponse` (soap/index.ts 124–141): the `expectedContent`
substring check on `JSON.stringify(response)`, then the error-indicator check
`response.Fault || response.fault || response.error || response.Error`. -/
def validateSoapResponse (s : SoapServiceV) (response : Json) : Bool :=
  (match truthyOptStr s.expectedContent with
   | some ec => strIncludes (jsonStringify response) ec
   | none => true)
  && !(jsTruthyField response "Fault" || jsTruthyField response "fault"
       || jsTruthyField response "error" || jsTruthyField response "Error")

/-! ### Configuration Resolver (`processEnvironmentVariables`,
src/config/index.ts 270–454) -/

/-- The closed set of deployment environments. -/
inductive EnvironmentType where
  | DEV | QA | SIT | UAT | PROD
deriving DecidableEq

/-- The environment's name as interpolated into template strings. -/
def EnvironmentType.name : EnvironmentType → String
  | .DEV => "DEV"
  | .QA => "QA"
  | .SIT => "SIT"
  | .UAT => "UAT"
  | .PROD => "PROD"

/-- The process-environment snapshot (`process.env`). -/
def EnvStore := String → Option String

/-- `process.env[k]` under JavaScript truthiness: an unset variable and a
variable set to `""` both fail a `process.env[k] && …` guard. -/
def envTruthy (store : EnvStore) (k : String) : Option String :=
  match store k with
  | some v => if v = "" then none else some v
  | none => none

/-- A `headerEnvVars` value: one environment-variable name or an ordered list
of candidate names. -/
inductive HeaderEnvVal where
  | one (s : String)
  | many (l : List String)
deriving DecidableEq

/-- The declarative service descriptor (`BaseService`, src/types). -/
structure BaseService where
  id : String := ""
  name : String := ""
  enabled : Option Bool := none
  url : Option String := none
  baseUrl : Option String := none
  path : Option String := none
  urlEnvVar : Option String := none
  baseUrlEnvVar : Option String := none
  environmentUrls : List (EnvironmentType × String) := []
  headers : List (String × String) := []
  headerEnvVars : List (String × HeaderEnvVal) := []
  environment : Option EnvironmentType := none
deriving DecidableEq

/-- Lookup in a string-valued header map. -/
def hlookup (m : List (String × String)) (k : String) : Option String :=
  (m.find? (fun p => p.1 == k)).map (·.2)

/-- JavaScript property assignment `m[k] = v`: overwrite in place if the key
exists, append otherwise. -/
def hinsert : List (String × String) → String → String → List (String × String)
  | [], k, v => [(k, v)]
  | (k', v') :: t, k, v => if k' == k then (k', v) :: t else (k', v') :: hinsert t k v

/-- JavaScript `delete m[k]`. -/
def hdelete (m : List (String × String)) (k : String) : List (String × String) :=
  m.filter (fun p => p.1 != k)

/-- Lookup in `headerEnvVars`. -/
def hevLookup (m : List (String × HeaderEnvVal)) (k : String) : Option HeaderEnvVal :=
  (m.find? (fun p => p.1 == k)).map (·.2)

/-- Truthiness of a `headerEnvVars` value: `""` is falsy, every array
(including `[]`) is truthy. -/
def truthyHev : Option HeaderEnvVal → Option HeaderEnvVal
  | some (.one s) => if s = "" then none else some (.one s)
  | some (.many l) => some (.many l)
  | none => none

/-- `service.environmentUrls[E]` (as an option; key lookup). -/
def envUrlLookup (s : BaseService) (env : EnvironmentType) : Option String :=
  (s.environmentUrls.find? (fun p => decide (p.1 = env))).map (·.2)

/-- Remove a single trailing `'/'` (`url.endsWith('/') → url.slice(0, -1)`). -/
def stripTrailingSlash (s : String) : String :=
  if s.data.getLast? = some '/' then String.mk s.data.dropLast else s

/-- Remove a single leading `'/'` (`path.startsWith('/') → path.slice(1)`). -/
def stripLeadingSlash (s : String) : String :=
  if s.data.head? = some '/' then String.mk (s.data.drop 1) else s

/-- The slash-normalising join `${base}/${path}` of the resolver. -/
def joinUrl (base path : String) : String :=
  stripTrailingSlash base ++ "/" ++ stripLeadingSlash path

/-- URL resolution of `processEnvironmentVariables` (src/config/index.ts
294–356), producing the processed service's `url` field.
Branch 1: a truthy `environmentUrls[E]` entry (used as an environment-variable
name if one exists, else literally, then joined with `path` if truthy).
Branch 2: a truthy `urlEnvVar` naming an existing environment variable.
Branch 3: `baseUrl`/`path` with optional `baseUrlEnvVar` override.
Otherwise the descriptor's literal `url` carries over unchanged. -/
def resolveUrl (store : EnvStore) (env : EnvironmentType) (s : BaseService) : Option String :=
  match truthyOptStr (envUrlLookup s env) with
  | some envUrlValue =>
      let u0 := match envTruthy store envUrlValue with
                | some ev => ev
                | none => envUrlValue
      (match truthyOptStr s.path with
       | some p => some (joinUrl u0 p)
       | none => some u0)
  | none =>
      match (match truthyOptStr s.urlEnvVar with
             | some uv => envTruthy store uv
             | none => none) with
      | some u => some u
      | none =>
          if (truthyOptStr s.baseUrl).isSome || (truthyOptStr s.path).isSome then
            let base0 := s.baseUrl.getD ""
            let base1 := match truthyOptStr s.baseUrlEnvVar with
                         | some bev =>
                             (match envTruthy store bev with
                              | some v => v
                              | none => base0)
                         | none => base0
            match (if base1 = "" then none else some base1), truthyOptStr s.path with
            | some b, some p => some (joinUrl b p)
            | some b, none => some b
            | none, some p => some p
            | none, none => s.url
          else s.url

/-- First environment variable in the candidate list that is set (truthy);
returns its value. -/
def firstEnvHit (store : EnvStore) : List String → Option String
  | [] => none
  | k :: t =>
      match envTruthy store k with
      | some v => some v
      | none => firstEnvHit store t

/-- The common tail of one `headerEnvVars` iteration (src/config/index.ts
414–444): a single name probes `<N>_<ENV>` then `<N>`; a list of names
probes every candidate's `_<ENV>` form first, then every plain form. -/
def resolveCommon (store : EnvStore) (env : EnvironmentType)
    (acc : List (String × String)) (fk : String) : HeaderEnvVal → List (String × String)
  | .one s =>
      (match envTruthy store (s ++ "_" ++ env.name) with
       | some v => hinsert acc fk v
       | none =>
           match envTruthy store s with
           | some v => hinsert acc fk v
           | none => acc)
  | .many l =>
      (match firstEnvHit store (l.map (fun v => v ++ "_" ++ env.name)) with
       | some v => hinsert acc fk v
       | none =>
           match firstEnvHit store l with
           | some v => hinsert acc fk v
           | none => acc)

/-- One iteration of the `Object.entries(service.headerEnvVars).forEach`
loop (src/config/index.ts 362–445).  `svcHeaders` and `svcHEV` are the
original descriptor's `headers`/`headerEnvVars` (the loop reads `service.…`),
`acc` is the mutable `processedService.headers`. -/
def processHeaderEntry (store : EnvStore) (env : EnvironmentType)
    (svcHeaders : List (String × String)) (svcHEV : List (String × HeaderEnvVal))
    (acc : List (String × String)) (entry : String × HeaderEnvVal) :
    List (String × String) :=
  let headerKey := entry.1
  let envVarName := entry.2
  let finalHeaderKey0 := match envTruthy store headerKey with
                         | some v => v
                         | none => headerKey
  let envSpecificHeaderKey := "NAME_API_KEY_" ++ env.name
  let envSpecificHeaderValue := "API_KEY_" ++ env.name
  match truthyOptStr (hlookup svcHeaders envSpecificHeaderKey) with
  | some _ =>
      if strBeginsWith headerKey "NAME_" then
        let acc1 := hdelete (hdelete acc headerKey) envSpecificHeaderKey
        let apiKeyValue := match hevLookup svcHEV envSpecificHeaderKey with
          | some (.one s) =>
              if s = "" then "XXXX valor"
              else (match envTruthy store s with
                    | some v => v
                    | none => "XXXX valor")
          | some (.many l) =>
              (match envTruthy store (String.intercalate "," l) with
               | some v => v
               | none => "XXXX valor")
          | none => "XXXX valor"
        hinsert acc1 finalHeaderKey0 apiKeyValue
      else
        hinsert acc envSpecificHeaderKey envSpecificHeaderValue
  | none =>
      if strIncludes headerKey envSpecificHeaderKey then
        resolveCommon store env acc headerKey envVarName
      else
        match truthyHev (hevLookup svcHEV envSpecificHeaderKey) with
        | some (.one s) =>
            (match envTruthy store s with
             | some v => hinsert acc finalHeaderKey0 v
             | none => resolveCommon store env acc finalHeaderKey0 envVarName)
        | some (.many _) => resolveCommon store env acc finalHeaderKey0 envVarName
        | none => resolveCommon store env acc finalHeaderKey0 envVarName

/-- Header resolution of one service: fold the `forEach` over the
`headerEnvVars` entries, starting from the descriptor's literal headers. -/
def resolveHeaders (store : EnvStore) (env : EnvironmentType) (s : BaseService) :
    List (String × String) :=
  s.headerEnvVars.foldl (processHeaderEntry store env s.headers s.headerEnvVars) s.headers

/-- The environment/enabled filter of `processEnvironmentVariables`
(src/config/index.ts 274–288): keep a service iff it has an
`environmentUrls` key for the current environment, or no `environment` pin,
or a pin equal to the current environment — and `enabled` is not literally
`false`. -/
def includeService (env : EnvironmentType) (s : BaseService) : Bool :=
  (s.environmentUrls.any (fun p => decide (p.1 = env))
     || s.environment.isNone
     || decide (s.environment = some env))
  && !(decide (s.enabled = some false))

/-- The per-service processing step: materialise `url` and `headers`. -/
def processOne (store : EnvStore) (env : EnvironmentType) (s : BaseService) : BaseService :=
  { s with url := resolveUrl store env s, headers := resolveHeaders store env s }

/-- `processEnvironmentVariables` (src/config/index.ts 270–454): filter by
environment and enabled status, then resolve URL and headers per service. -/
def processEnvironmentVariables (store : EnvStore) (env : EnvironmentType)
    (services : List BaseService) : List BaseService :=
  (services.filter (includeService env)).map (processOne store env)

/-! ### Batch summary assembly (`checkAllServices`, src/services/index.ts 14–80) -/

/-- A per-service check result row (the fields the summary depends on). -/
structure ServiceResultM where
  id : String
  name : String
  status : String

structure SummaryM where
  total : Nat
  success : Nat
  failed : Nat

structure CheckResultsM where
  services : List ServiceResultM
  summary : SummaryM

/-- The result assembly of `checkAllServices` (lines 60, 67, 71–73): REST
results then SOAP results are concatenated, and the summary is computed as
`total = services.length`, `success = |filter status === 'success'|`,
`failed = total - success`. -/
def assembleCheckResults (restResults soapResults : List ServiceResultM) : CheckResultsM :=
  let services := restResults ++ soapResults
  let total := services.length
  let success := (services.filter (fun s => s.status == "success")).length
  { services := services
    summary := { total := total, success := success, failed := total - success } }

/-! ## Helper lemmas -/

theorem validateSchemaElems_eq_all (l : List Json) (s : Schema) :
    validateSchemaElems l s = l.all (fun e => validateSchema e s) := by
  induction l with
  | nil => simp [validateSchemaElems]
  | cons e t ih => simp [validateSchemaElems, ih]

theorem generateSchemaFields_length (l : List (String × Json)) :
    (generateSchemaFields l).length = l.length := by
  induction l with
  | nil => simp [generateSchemaFields]
  | cons p t ih =>
    obtain ⟨k, v⟩ := p
    simp [generateSchemaFields, ih]

theorem sHasKey_generateSchemaFields (l : List (String × Json)) (k : String) :
    sHasKey (generateSchemaFields l) k = hasKey l k := by
  induction l with
  | nil => simp [generateSchemaFields, sHasKey, hasKey, List.find?]
  | cons p t ih =>
    obtain ⟨a, v⟩ := p
    by_cases h : a == k
    · simp [generateSchemaFields, sHasKey, hasKey, List.find?, h]
    · simp only [generateSchemaFields, sHasKey, hasKey, List.find?, h] at ih ⊢
      exact ih

theorem slookup_generateSchemaFields (l : List (String × Json)) (k : String) :
    slookup (generateSchemaFields l) k = generateSchema (jlookup l k) := by
  induction l with
  | nil => simp [generateSchemaFields, slookup, jlookup, List.find?, generateSchema]
  | cons p t ih =>
    obtain ⟨a, v⟩ := p
    by_cases h : a == k
    · simp [generateSchemaFields, slookup, jlookup, List.find?, h]
    · simp only [generateSchemaFields, slookup, jlookup, List.find?, h] at ih ⊢
      exact ih

theorem validateSchemaKeys_iff (ks : List String) (fields : List (String × Json))
    (props : List (String × Schema)) :
    validateSchemaKeys ks fields props = true ↔
      ∀ k ∈ ks, sHasKey props k = true
        ∧ validateSchema (jlookup fields k) (slookup props k) = true := by
  induction ks with
  | nil => simp [validateSchemaKeys]
  | cons k t ih =>
    simp only [validateSchemaKeys, Bool.and_eq_true, ih, List.mem_cons]
    constructor
    · rintro ⟨⟨h1, h2⟩, h3⟩ x hx
      rcases hx with hx | hx
      · subst hx; exact ⟨h1, h2⟩
      · exact h3 x hx
    · intro h
      exact ⟨⟨(h k (Or.inl rfl)).1, (h k (Or.inl rfl)).2⟩, fun x hx => h x (Or.inr hx)⟩

theorem hlookup_hinsert (m : List (String × String)) (k v : String) :
    hlookup (hinsert m k v) k = some v := by
  induction m with
  | nil => simp [hinsert, hlookup, List.find?]
  | cons p t ih =>
    obtain ⟨a, b⟩ := p
    by_cases h : a == k
    · simp [hinsert, hlookup, List.find?, h]
    · have hstep : hinsert ((a, b) :: t) k v = (a, b) :: hinsert t k v := by
        simp [hinsert, h]
      rw [hstep]
      simp only [hlookup, List.find?, h] at ih ⊢
      exact ih

/-! ## Claims -/

/-- C9: in the batch result of `checkAllServices`, `summary.total` equals the
number of entries in `services`, `summary.success` equals the number of
entries with status `'success'`, and `success + failed = total`. -/
theorem c9_summary_consistent (restResults soapResults : List ServiceResultM) :
    (assembleCheckResults restResults soapResults).summary.total
        = (assembleCheckResults restResults soapResults).services.length
    ∧ (assembleCheckResults restResults soapResults).summary.success
        = ((assembleCheckResults restResults soapResults).services.filter
            (fun s => s.status == "success")).length
    ∧ (assembleCheckResults restResults soapResults).summary.success
        + (assembleCheckResults restResults soapResults).summary.failed
        = (assembleCheckResults restResults soapResults).summary.total := by
  refine ⟨rfl, rfl, ?_⟩
  have h := List.length_filter_le (fun s => s.status == "success")
    (restResults ++ soapResults)
  simp only [assembleCheckResults]
  omega

/-- C10: the schema derived from an empty-array expectation is
`{type:'array', items:{type:'any'}}`; `validateSchema` matches no value
against type `'any'`; hence exactly the empty actual array passes the schema
strategy against an empty-array expectation. -/
theorem c10_empty_array_schema :
    generateSchema (Json.arr []) = Schema.arrS (Schema.primS "any")
    ∧ (∀ v : Json, validateSchema v (Schema.primS "any") = false)
    ∧ (∀ l : List Json, validateSchema (Json.arr l) (generateSchema (Json.arr [])) = l.isEmpty) := by
  have hany : ∀ v : Json, validateSchema v (Schema.primS "any") = false := by
    intro v
    cases v <;> simp [validateSchema, Json.typeOf]
  refine ⟨by simp [generateSchema], hany, ?_⟩
  intro l
  cases l with
  | nil => simp [generateSchema, validateSchema, validateSchemaElems]
  | cons e t => simp [generateSchema, validateSchema, validateSchemaElems, hany e]

/-- C1 counterexample: a strategy list whose first strategy throws while the
remaining strategies succeed yields the overall verdict `false` — whereas the
claim predicts `true` (the later strategies were supposed to be attempted and
to decide the verdict).  The second conjunct shows that with an ordinary
failure in place of the throw, the later strategies are consulted. -/
theorem c1_counterexample :
    tryCatchVerdict [Except.error (), Except.ok true, Except.ok true, Except.ok true] = false
    ∧ tryCatchVerdict [Except.ok false, Except.ok true, Except.ok true, Except.ok true] = true :=
  ⟨rfl, rfl⟩

/-- C1 (amended): an exception thrown inside a matching strategy is caught by
the single try/catch wrapping all four strategies and yields the overall
verdict `false` immediately; the strategies after the throwing one are NOT
attempted — their results cannot influence the verdict. -/
theorem c1_amended (pre rest : List (Except Unit Bool))
    (h : ∀ x ∈ pre, x = Except.ok false) :
    tryCatchVerdict (pre ++ Except.error () :: rest) = false := by
  have key : ∀ (pre' : List (Except Unit Bool)), (∀ x ∈ pre', x = Except.ok false) →
      runStrategies (pre' ++ Except.error () :: rest) = Except.error () := by
    intro pre'
    induction pre' with
    | nil =>
      intro _
      simp [runStrategies]
    | cons x t ih =>
      intro h'
      have hx : x = Except.ok false := h' x (by simp)
      subst hx
      simp only [List.cons_append, runStrategies]
      exact ih (fun y hy => h' y (by simp [hy]))
  simp [tryCatchVerdict, key pre h]

/-- C1 witness: a concrete run with one failing strategy before the throwing
one. -/
theorem c1_witness :
    tryCatchVerdict ([Except.ok false] ++ Except.error () :: [Except.ok true]) = false :=
  c1_amended [Except.ok false] [Except.ok true] (by simp)

/-- C2 counterexample: a SOAP response whose only top-level key is `"FAULT"`
(a case variant of `"fault"`, second conjunct) passes validation — the fault
check is not case-insensitive, it tests exactly the four spellings `Fault`,
`fault`, `error`, `Error`. -/
theorem c2_counterexample :
    validateSoapResponse ⟨none⟩ (Json.obj [("FAULT", Json.obj [("code", Json.num 1)])]) = true
    ∧ "FAULT".data.map Char.toLower = "fault".data :=
  ⟨rfl, by decide⟩

/-- C2 (amended): a SOAP response is rejected whenever one of the exact
top-level keys `Fault`, `fault`, `error`, `Error` holds a truthy value
(the check is case-sensitive, covering these four spellings only); in
particular a body `{Fault:{…}}` always fails, regardless of the
`expectedContent` check. -/
theorem c2_amended :
    (∀ (s : SoapServiceV) (r : Json) (k : String) (v : Json),
       (k = "Fault" ∨ k = "fault" ∨ k = "error" ∨ k = "Error") →
       r.getField k = some v → v.truthy = true →
       validateSoapResponse s r = false)
    ∧ (∀ (s : SoapServiceV) (fs rest : List (String × Json)),
         validateSoapResponse s (Json.obj (("Fault", Json.obj fs) :: rest)) = false) := by
  constructor
  · intro s r k v hk hg ht
    have hb : jsTruthyField r k = true := by simp [jsTruthyField, hg, ht]
    rcases hk with h | h | h | h <;> subst h <;> simp [validateSoapResponse, hb]
  · intro s fs rest
    have hb : jsTruthyField (Json.obj (("Fault", Json.obj fs) :: rest)) "Fault" = true := by
      simp [jsTruthyField, Json.getField, List.find?, Json.truthy]
    simp [validateSoapResponse, hb]

/-- C2 witness: a concrete faulted response with a satisfied
`expectedContent`. -/
theorem c2_witness :
    validateSoapResponse ⟨some "ok"⟩
      (Json.obj [("res", Json.str "ok"), ("Fault", Json.obj [])]) = false :=
  c2_amended.1 ⟨some "ok"⟩ _ "Fault" (Json.obj []) (Or.inl rfl)
    (by simp [Json.getField, List.find?]) rfl

/-- C5: against the schema derived from an object expectation, an actual
object passes only if every required key (all expectation keys) is present,
its key count exactly equals the schema's key count, and every property
recursively satisfies its sub-schema; against the schema derived from a
non-empty array expectation, every element is checked against the single
schema derived from the first expectation element (not positionally); and
the concrete actual `{a:1,b:2,c:3}` is rejected against expectation
`{a:1,b:2}`. -/
theorem c5_schema_strategy :
    (∀ (aFs eFs : List (String × Json)),
       validateSchema (Json.obj aFs) (generateSchema (Json.obj eFs)) = true →
         (∀ k ∈ jkeys eFs, hasKey aFs k = true)
         ∧ aFs.length = eFs.length
         ∧ (∀ k ∈ jkeys aFs, hasKey eFs k = true
              ∧ validateSchema (jlookup aFs k) (generateSchema (jlookup eFs k)) = true))
    ∧ (∀ (es : List Json) (e0 : Json) (rest : List Json),
         validateSchema (Json.arr es) (generateSchema (Json.arr (e0 :: rest)))
           = es.all (fun x => validateSchema x (generateSchema e0)))
    ∧ validateSchema (Json.obj [("a", Json.num 1), ("b", Json.num 2), ("c", Json.num 3)])
        (generateSchema (Json.obj [("a", Json.num 1), ("b", Json.num 2)])) = false := by
  refine ⟨?_, ?_, ?_⟩
  · intro aFs eFs h
    have hgen : generateSchema (Json.obj eFs)
        = Schema.objS (generateSchemaFields eFs) (jkeys eFs) := by
      simp [generateSchema]
    rw [hgen] at h
    simp only [validateSchema, Bool.and_eq_true] at h
    obtain ⟨⟨hreq, hlen⟩, hkeys⟩ := h
    refine ⟨?_, ?_, ?_⟩
    · intro k hk
      exact List.all_eq_true.mp hreq k hk
    · have hlen' : (jkeys aFs).length = (generateSchemaFields eFs).length := by
        exact_mod_cast Nat.beq_eq_true_eq _ _ ▸ hlen
      simpa [jkeys, generateSchemaFields_length] using hlen'
    · intro k hk
      have := (validateSchemaKeys_iff (jkeys aFs) aFs (generateSchemaFields eFs)).mp hkeys k hk
      rw [sHasKey_generateSchemaFields, slookup_generateSchemaFields] at this
      exact this
  · intro es e0 rest
    have hgen : generateSchema (Json.arr (e0 :: rest)) = Schema.arrS (generateSchema e0) := by
      simp [generateSchema]
    rw [hgen]
    simp [validateSchema, validateSchemaElems_eq_all]
  · simp [generateSchema, generateSchemaFields, validateSchema, validateSchemaKeys,
      hasKey, sHasKey, jkeys, jlookup, slookup, List.find?]

/-- C5 witness: a concrete instantiation of the object characterisation at a
passing pair (actual `{a:1}` against expectation `{a:2}`). -/
theorem c5_witness :
    ([("a", Json.num 1)] : List (String × Json)).length
      = ([("a", Json.num 2)] : List (String × Json)).length :=
  ((c5_schema_strategy.1 [("a", Json.num 1)] [("a", Json.num 2)]
      (by simp [generateSchema, generateSchemaFields, validateSchema, validateSchemaKeys,
        hasKey, sHasKey, jkeys, jlookup, slookup, List.find?, Json.typeOf])).2.1)

/-- C3: the Configuration Resolver's output contains (the processed form of)
a descriptor iff the descriptor declares an `environmentUrls` entry for the
current environment, or declares no `environment` pin, or its pin equals the
current environment — and its `enabled` flag is not explicitly `false`. -/
theorem c3_resolver_filter (store : EnvStore) (env : EnvironmentType)
    (services : List BaseService) (t : BaseService) :
    t ∈ processEnvironmentVariables store env services ↔
      ∃ s ∈ services,
        ((∃ u, (env, u) ∈ s.environmentUrls) ∨ s.environment = none ∨ s.environment = some env)
        ∧ s.enabled ≠ some false
        ∧ t = processOne store env s := by
  simp only [processEnvironmentVariables, List.mem_map, List.mem_filter]
  constructor
  · rintro ⟨s, ⟨hs, hcond⟩, hts⟩
    simp only [includeService, Bool.and_eq_true, Bool.or_eq_true, List.any_eq_true,
      decide_eq_true_eq, Option.isNone_iff_eq_none, Bool.not_eq_true',
      decide_eq_false_iff_not] at hcond
    obtain ⟨hin, hen⟩ := hcond
    refine ⟨s, hs, ?_, hen, hts.symm⟩
    rcases hin with (⟨p, hp, hpe⟩ | hnone) | hpin
    · exact Or.inl ⟨p.2, by rwa [← hpe, Prod.mk.eta]⟩
    · exact Or.inr (Or.inl hnone)
    · exact Or.inr (Or.inr hpin)
  · rintro ⟨s, hs, hin, hen, ht⟩
    refine ⟨s, ⟨hs, ?_⟩, ht.symm⟩
    simp only [includeService, Bool.and_eq_true, Bool.or_eq_true, List.any_eq_true,
      decide_eq_true_eq, Option.isNone_iff_eq_none, Bool.not_eq_true',
      decide_eq_false_iff_not]
    refine ⟨?_, hen⟩
    rcases hin with ⟨u, hu⟩ | hnone | hpin
    · exact Or.inl (Or.inl ⟨(env, u), hu, rfl⟩)
    · exact Or.inl (Or.inr hnone)
    · exact Or.inr hpin

/-- C4 counterexample: a descriptor declaring the `environmentUrls` entry
`(UAT, "")` together with `urlEnvVar = "U"` (and `U` set in the environment)
resolves to the value of `U` — the branch-1 guard tests *truthiness* of
`environmentUrls[E]`, so an empty-string entry falls through to `urlEnvVar`,
contradicting the claim that the URL never comes from `urlEnvVar` whenever an
`environmentUrls` entry for `E` exists. -/
theorem c4_counterexample :
    (EnvironmentType.UAT, "") ∈
      ({ environmentUrls := [(EnvironmentType.UAT, "")], urlEnvVar := some "U" }
        : BaseService).environmentUrls
    ∧ resolveUrl (fun k => if k = "U" then some "http://u" else none) EnvironmentType.UAT
        { environmentUrls := [(EnvironmentType.UAT, "")], urlEnvVar := some "U" }
        = some "http://u"
    ∧ resolveUrl (fun k => if k = "U" then some "http://u" else none) EnvironmentType.UAT
        { environmentUrls := [(EnvironmentType.UAT, "")], urlEnvVar := some "U" }
        ≠ some "" :=
  ⟨by simp, rfl, by decide⟩

/-- C4 (amended): whenever the descriptor's `environmentUrls` entry for the
current environment is truthy (non-empty), the resolved URL is computed from
that candidate alone — environment-variable indirection if a variable of that
name is set, the literal value otherwise, joined with `path` when truthy —
and `urlEnvVar` is never consulted: the result is unchanged when `urlEnvVar`
is removed from the descriptor. -/
theorem c4_amended (store : EnvStore) (env : EnvironmentType) (s : BaseService) (v : String)
    (hv : envUrlLookup s env = some v) (hne : v ≠ "") :
    resolveUrl store env s
      = some (match truthyOptStr s.path with
              | some p => joinUrl ((envTruthy store v).getD v) p
              | none => (envTruthy store v).getD v)
    ∧ resolveUrl store env s = resolveUrl store env { s with urlEnvVar := none } := by
  have h1 : truthyOptStr (envUrlLookup s env) = some v := by
    simp [truthyOptStr, hv, hne]
  have h1' : truthyOptStr (envUrlLookup { s with urlEnvVar := none } env) = some v := by
    have : envUrlLookup { s with urlEnvVar := none } env = envUrlLookup s env := rfl
    rw [this, h1]
  constructor
  · simp only [resolveUrl, h1]
    cases envTruthy store v <;> cases truthyOptStr s.path <;> simp [Option.getD]
  · simp only [resolveUrl, h1, h1']

/-- C4 witness: a truthy `environmentUrls[UAT]` entry naming an existing
environment variable wins over a set `urlEnvVar`, and `path` is joined. -/
theorem c4_witness :
    resolveUrl
      (fun k => if k = "MY_VAR" then some "http://fromvar"
                else if k = "U" then some "http://u" else none)
      EnvironmentType.UAT
      { environmentUrls := [(EnvironmentType.UAT, "MY_VAR")],
        urlEnvVar := some "U", path := some "/p" }
      = some "http://fromvar/p" := by
  have h := (c4_amended
    (fun k => if k = "MY_VAR" then some "http://fromvar"
              else if k = "U" then some "http://u" else none)
    EnvironmentType.UAT
    { environmentUrls := [(EnvironmentType.UAT, "MY_VAR")],
      urlEnvVar := some "U", path := some "/p" }
    "MY_VAR" rfl (by decide)).1
  rw [h]
  rfl

/-- C8 counterexample: for base `b = "a/"` and path `p = "x"`, the descriptor
with `baseUrl = b ++ "/"`, `path = "/" ++ p` resolves to `"a//x"` while the
descriptor with `baseUrl = b`, `path = p` resolves to `"a/x"` — the two forms
do not resolve to the same URL (only a single slash is stripped). -/
theorem c8_counterexample :
    resolveUrl (fun _ => none) EnvironmentType.SIT
        { baseUrl := some ("a/" ++ "/"), path := some ("/" ++ "x") } = some "a//x"
    ∧ resolveUrl (fun _ => none) EnvironmentType.SIT
        { baseUrl := some "a/", path := some "x" } = some "a/x"
    ∧ ("a//x" : String) ≠ "a/x" :=
  ⟨rfl, rfl, by decide⟩

/-- C8 (amended): for every non-empty base `b` not ending in `'/'` and every
non-empty path `p` not starting with `'/'`, the descriptors
`⟨baseUrl = b ++ "/", path = "/" ++ p⟩` and `⟨baseUrl = b, path = p⟩` resolve
to the identical URL `b ++ "/" ++ p` (one trailing slash of the base and one
leading slash of the path are stripped before joining with `"/"`). -/
theorem c8_amended (store : EnvStore) (env : EnvironmentType) (b p : String)
    (hb : b ≠ "") (hp : p ≠ "")
    (hbl : b.data.getLast? ≠ some '/') (hph : p.data.head? ≠ some '/') :
    resolveUrl store env { baseUrl := some (b ++ "/"), path := some ("/" ++ p) }
        = some (b ++ "/" ++ p)
    ∧ resolveUrl store env { baseUrl := some b, path := some p }
        = some (b ++ "/" ++ p) := by
  have hbdata : (b ++ "/").data = b.data ++ ['/'] := by
    simp [String.data_append]
  have hpdata : ("/" ++ p).data = '/' :: p.data := by
    simp [String.data_append]
  have hmk : ∀ s : String, String.mk s.data = s := fun _ => rfl
  have hbslash_ne : b ++ "/" ≠ "" := by
    intro h
    have := congrArg String.data h
    rw [hbdata] at this
    simp at this
  have hpslash_ne : "/" ++ p ≠ "" := by
    intro h
    have := congrArg String.data h
    rw [hpdata] at this
    simp at this
  have hstrip1 : stripTrailingSlash (b ++ "/") = b := by
    rw [stripTrailingSlash, hbdata]
    simp [List.getLast?_concat, List.dropLast_concat, hmk]
  have hstrip2 : stripLeadingSlash ("/" ++ p) = p := by
    rw [stripLeadingSlash, hpdata]
    simp [hmk]
  have hstrip3 : stripTrailingSlash b = b := by
    simp [stripTrailingSlash, hbl]
  have hstrip4 : stripLeadingSlash p = p := by
    simp [stripLeadingSlash, hph]
  constructor
  · simp [resolveUrl, envUrlLookup, truthyOptStr, hbslash_ne, hpslash_ne,
      joinUrl, hstrip1, hstrip2]
  · simp [resolveUrl, envUrlLookup, truthyOptStr, hb, hp,
      joinUrl, hstrip3, hstrip4]

/-- C8 witness: the spec's own example, `baseUrl="https://a.com/"`, `path="/x"`
versus `baseUrl="https://a.com"`, `path="x"`. -/
theorem c8_witness :
    resolveUrl (fun _ => none) EnvironmentType.SIT
        { baseUrl := some ("https://a.com" ++ "/"), path := some ("/" ++ "x") }
        = some ("https://a.com" ++ "/" ++ "x")
    ∧ resolveUrl (fun _ => none) EnvironmentType.SIT
        { baseUrl := some "https://a.com", path := some "x" }
        = some ("https://a.com" ++ "/" ++ "x")
    ∧ ("https://a.com" ++ "/" ++ "x" : String) = "https://a.com/x" := by
  have h := c8_amended (fun _ => none) EnvironmentType.SIT "https://a.com" "x"
    (by decide) (by decide) (by decide) (by decide)
  exact ⟨h.1, h.2, by decide⟩

/-- C7 counterexample: a descriptor whose literal headers contain
`NAME_API_KEY_UAT` (the legacy convention) never resolves the header `Foo`
from its declared single candidate `API_KEY`, even though `API_KEY_UAT` is
set — resolution for that entry is hijacked by the legacy branch,
contradicting the claim that every single-name header first probes
`N_<ENV>` and then `N`. -/
theorem c7_counterexample :
    hlookup (resolveHeaders
        (fun k => if k = "API_KEY_UAT" then some "k1"
                  else if k = "API_KEY" then some "k2" else none)
        EnvironmentType.UAT
        { headers := [("NAME_API_KEY_UAT", "x")],
          headerEnvVars := [("Foo", HeaderEnvVal.one "API_KEY")] }) "Foo" = none
    ∧ (fun k => if k = "API_KEY_UAT" then some "k1"
                else if k = "API_KEY" then some "k2" else none : EnvStore) "API_KEY_UAT"
        = some "k1" :=
  ⟨rfl, rfl⟩

/-- C7 (amended): provided the descriptor does not use the legacy
`NAME_API_KEY_<ENV>` convention (no truthy `NAME_API_KEY_<ENV>` literal
header, no `NAME_API_KEY_<ENV>` key in `headerEnvVars`, and a header name not
containing `NAME_API_KEY_<ENV>`), a header entry with a single
environment-variable name `N` first probes `N_<CURRENT_ENVIRONMENT>` and uses
its value if set, and only otherwise probes `N`; concretely, with
`API_KEY_UAT="k1"`, `API_KEY="k2"` and current environment UAT, the resolved
header value is `"k1"`. -/
theorem c7_amended :
    (∀ (store : EnvStore) (env : EnvironmentType) (svcHeaders : List (String × String))
       (svcHEV : List (String × HeaderEnvVal)) (acc : List (String × String))
       (hk N v : String),
       truthyOptStr (hlookup svcHeaders ("NAME_API_KEY_" ++ env.name)) = none →
       hevLookup svcHEV ("NAME_API_KEY_" ++ env.name) = none →
       strIncludes hk ("NAME_API_KEY_" ++ env.name) = false →
       envTruthy store (N ++ "_" ++ env.name) = some v →
       hlookup (processHeaderEntry store env svcHeaders svcHEV acc (hk, HeaderEnvVal.one N))
         ((envTruthy store hk).getD hk) = some v)
    ∧ (∀ (store : EnvStore) (env : EnvironmentType) (svcHeaders : List (String × String))
       (svcHEV : List (String × HeaderEnvVal)) (acc : List (String × String))
       (hk N v : String),
       truthyOptStr (hlookup svcHeaders ("NAME_API_KEY_" ++ env.name)) = none →
       hevLookup svcHEV ("NAME_API_KEY_" ++ env.name) = none →
       strIncludes hk ("NAME_API_KEY_" ++ env.name) = false →
       envTruthy store (N ++ "_" ++ env.name) = none →
       envTruthy store N = some v →
       hlookup (processHeaderEntry store env svcHeaders svcHEV acc (hk, HeaderEnvVal.one N))
         ((envTruthy store hk).getD hk) = some v)
    ∧ hlookup (resolveHeaders
        (fun k => if k = "API_KEY_UAT" then some "k1"
                  else if k = "API_KEY" then some "k2" else none)
        EnvironmentType.UAT
        { headerEnvVars := [("X-API-Key", HeaderEnvVal.one "API_KEY")] }) "X-API-Key"
        = some "k1" := by
  refine ⟨?_, ?_, rfl⟩
  · intro store env svcHeaders svcHEV acc hk N v h1 h2 h3 h4
    simp only [processHeaderEntry, h1, h2, h3, truthyHev, Bool.false_eq_true, if_false,
      resolveCommon, h4]
    cases hhk : envTruthy store hk <;> simp [Option.getD, hlookup_hinsert]
  · intro store env svcHeaders svcHEV acc hk N v h1 h2 h3 h4 h5
    simp only [processHeaderEntry, h1, h2, h3, truthyHev, Bool.false_eq_true, if_false,
      resolveCommon, h4, h5]
    cases hhk : envTruthy store hk <;> simp [Option.getD, hlookup_hinsert]

/-- C7 witness: the spec's concrete example run through one header-entry
iteration. -/
theorem c7_witness :
    hlookup (processHeaderEntry
        (fun k => if k = "API_KEY_UAT" then some "k1"
                  else if k = "API_KEY" then some "k2" else none)
        EnvironmentType.UAT [] [("X-API-Key", HeaderEnvVal.one "API_KEY")] []
        ("X-API-Key", HeaderEnvVal.one "API_KEY"))
      ((envTruthy (fun k => if k = "API_KEY_UAT" then some "k1"
          else if k = "API_KEY" then some "k2" else none) "X-API-Key").getD "X-API-Key")
      = some "k1" :=
  c7_amended.1
    (fun k => if k = "API_KEY_UAT" then some "k1"
              else if k = "API_KEY" then some "k2" else none)
    EnvironmentType.UAT [] [("X-API-Key", HeaderEnvVal.one "API_KEY")] []
    "X-API-Key" "API_KEY" "k1" rfl rfl rfl rfl

/-! ## Specification-side description of strategy 1 (for claim C6)

`specStructMatch` is written from the (amended) specification wording of the
structure strategy, not from the source: two `null`s match; `null` against
anything else mismatches; two primitives match iff they have the same runtime
type; two arrays match iff they have equal length and pairwise structurally
matching elements; two objects match iff they have exactly the same key set
(order-independent, via mutual containment) and structurally matching values
per key; any other combination mismatches. -/

/-- Spec wording: "exactly the same set of keys (order-independent)". -/
def specKeySetEq (ks1 ks2 : List String) : Bool :=
  ks1.all (fun k => ks2.contains k) && ks2.all (fun k => ks1.contains k)

mutual
def specStructMatch : Json → Json → Bool
  | .null, .null => true
  | .null, _ => false
  | _, .null => false
  | .arr xs, .arr ys => xs.length == ys.length && specStructMatchElems xs ys
  | .obj xs, .obj ys => specKeySetEq (jkeys xs) (jkeys ys) && specStructMatchFields xs ys
  | .arr _, _ => false
  | _, .arr _ => false
  | .obj _, _ => false
  | _, .obj _ => false
  | a, b => a.typeOf == b.typeOf
termination_by a b => (sizeOf a + sizeOf b, 0)
decreasing_by
  all_goals simp_wf
  all_goals
    first
    | (apply Prod.Lex.left; omega)
    | (apply lexRightAux; omega)

def specStructMatchElems : List Json → List Json → Bool
  | x :: xs, y :: ys => specStructMatch x y && specStructMatchElems xs ys
  | _, _ => true
termination_by xs ys => (sizeOf xs + sizeOf ys, 0)
decreasing_by
  all_goals simp_wf
  all_goals
    first
    | (apply Prod.Lex.left; omega)
    | (apply lexRightAux; omega)

def specStructMatchFields : List (String × Json) → List (String × Json) → Bool
  | [], _ => true
  | (k, v) :: t, ys => specStructMatch v (jlookup ys k) && specStructMatchFields t ys
termination_by xs ys => (sizeOf xs + sizeOf ys, 1)
decreasing_by
  all_goals simp_wf
  all_goals
    first
    | (apply Prod.Lex.left; omega)
    | (apply lexRightAux; omega)
    | (have h := sizeOf_jlookup_le ys k
       apply Prod.Lex.left
       omega)
end

/-! ## Lemmas for the C6 equivalence -/

theorem boolEqIff {a b : Bool} (h : a = true ↔ b = true) : a = b := by
  cases a <;> cases b <;> simp_all

theorem nodupStr_iff (l : List String) : nodupStr l = true ↔ l.Nodup := by
  induction l with
  | nil => simp [nodupStr]
  | cons k t ih =>
    have hc : t.contains k = true ↔ k ∈ t := by simp [List.contains]
    simp only [nodupStr, Bool.and_eq_true, Bool.not_eq_true', List.nodup_cons, ih]
    constructor
    · rintro ⟨h1, h2⟩
      refine ⟨fun hm => ?_, h2⟩
      rw [hc.mpr hm] at h1
      cases h1
    · rintro ⟨h1, h2⟩
      refine ⟨?_, h2⟩
      cases hcont : t.contains k
      · rfl
      · exact absurd (hc.mp hcont) h1

theorem sortStr_perm (l : List String) : (sortStr l).Perm l :=
  List.mergeSort_perm l _

theorem sortStr_sorted (l : List String) : List.Sorted (· ≤ ·) (sortStr l) := by
  have h := @List.sorted_mergeSort String (fun a b : String => a ≤ b)
    (fun a b c hab hbc => by
      simp only [decide_eq_true_eq] at *
      exact le_trans hab hbc)
    (fun a b => by
      simp only [Bool.or_eq_true, decide_eq_true_eq]
      exact le_total a b) l
  exact List.Pairwise.imp (fun h' => by simpa using h') h

theorem sortStr_eq_iff {l1 l2 : List String} (h1 : l1.Nodup) (h2 : l2.Nodup) :
    sortStr l1 = sortStr l2 ↔ ∀ a, a ∈ l1 ↔ a ∈ l2 := by
  constructor
  · intro h a
    rw [← (sortStr_perm l1).mem_iff, ← (sortStr_perm l2).mem_iff, h]
  · intro h
    have hperm : l1.Perm l2 := (List.perm_ext_iff_of_nodup h1 h2).mpr h
    exact List.eq_of_perm_of_sorted
      ((sortStr_perm l1).trans (hperm.trans (sortStr_perm l2).symm))
      (sortStr_sorted l1) (sortStr_sorted l2)

theorem specKeySetEq_iff (ks1 ks2 : List String) :
    specKeySetEq ks1 ks2 = true ↔ ∀ a, a ∈ ks1 ↔ a ∈ ks2 := by
  simp only [specKeySetEq, Bool.and_eq_true, List.all_eq_true, List.contains]
  constructor
  · rintro ⟨hl, hr⟩ a
    constructor
    · intro ha
      have := hl a ha
      simpa using this
    · intro ha
      have := hr a ha
      simpa using this
  · intro h
    constructor
    · intro a ha
      simpa using (h a).mp ha
    · intro a ha
      simpa using (h a).mpr ha

theorem jlookup_eq_of_mem {fields : List (String × Json)} {k : String} {v : Json}
    (hnd : (jkeys fields).Nodup) (h : (k, v) ∈ fields) : jlookup fields k = v := by
  induction fields with
  | nil => cases h
  | cons p t ih =>
    obtain ⟨a, b⟩ := p
    simp only [jkeys, List.map_cons, List.nodup_cons] at hnd
    rcases List.mem_cons.mp h with heq | hmem
    · cases heq
      simp [jlookup, List.find?]
    · have hak : ¬(a == k) = true := by
        intro hc
        have : a = k := by simpa using hc
        subst this
        exact hnd.1 (by simpa [jkeys] using List.mem_map_of_mem Prod.fst hmem)
      simp only [jlookup, List.find?, hak] at ih ⊢
      exact ih hnd.2 hmem

theorem mem_jkeys_iff {fields : List (String × Json)} {k : String} :
    k ∈ jkeys fields ↔ ∃ v, (k, v) ∈ fields := by
  simp only [jkeys, List.mem_map]
  constructor
  · rintro ⟨⟨a, b⟩, hm, rfl⟩
    exact ⟨b, hm⟩
  · rintro ⟨v, hv⟩
    exact ⟨(k, v), hv, rfl⟩

theorem nodupKeysList_mem {l : List Json} (h : nodupKeysList l = true) :
    ∀ e ∈ l, nodupKeysJ e = true := by
  induction l with
  | nil => simp
  | cons x t ih =>
    simp only [nodupKeysList, Bool.and_eq_true] at h
    intro e he
    rcases List.mem_cons.mp he with rfl | hm
    · exact h.1
    · exact ih h.2 e hm

theorem nodupKeysFields_mem {l : List (String × Json)} (h : nodupKeysFields l = true) :
    ∀ p ∈ l, nodupKeysJ p.2 = true := by
  induction l with
  | nil => simp
  | cons x t ih =>
    simp only [nodupKeysFields, Bool.and_eq_true] at h
    intro p hp
    rcases List.mem_cons.mp hp with rfl | hm
    · exact h.1
    · exact ih h.2 p hm

theorem nodupKeysJ_jlookup {ys : List (String × Json)} (h : nodupKeysFields ys = true)
    (k : String) : nodupKeysJ (jlookup ys k) = true := by
  induction ys with
  | nil => simp [jlookup, List.find?, nodupKeysJ]
  | cons p t ih =>
    obtain ⟨a, b⟩ := p
    simp only [nodupKeysFields, Bool.and_eq_true] at h
    by_cases hk : a == k
    · simpa [jlookup, List.find?, hk] using h.1
    · simp only [jlookup, List.find?, hk] at ih ⊢
      exact ih h.2

theorem compareStructureKeys_iff (ks : List String) (xs ys : List (String × Json)) :
    compareStructureKeys ks xs ys = true ↔
      ∀ k ∈ ks, compareStructure (jlookup xs k) (jlookup ys k) = true := by
  induction ks with
  | nil => simp [compareStructureKeys]
  | cons k t ih =>
    simp only [compareStructureKeys, Bool.and_eq_true, ih, List.mem_cons]
    constructor
    · rintro ⟨h1, h2⟩ x hx
      rcases hx with rfl | hx
      · exact h1
      · exact h2 x hx
    · intro h
      exact ⟨h k (Or.inl rfl), fun x hx => h x (Or.inr hx)⟩

theorem specStructMatchFields_iff (xs ys : List (String × Json)) :
    specStructMatchFields xs ys = true ↔
      ∀ p ∈ xs, specStructMatch p.2 (jlookup ys p.1) = true := by
  induction xs with
  | nil => simp [specStructMatchFields]
  | cons p t ih =>
    obtain ⟨k, v⟩ := p
    simp only [specStructMatchFields, Bool.and_eq_true, ih, List.mem_cons]
    constructor
    · rintro ⟨h1, h2⟩ q hq
      rcases hq with rfl | hq
      · exact h1
      · exact h2 q hq
    · intro h
      exact ⟨h (k, v) (Or.inl rfl), fun q hq => h q (Or.inr hq)⟩

theorem structEquivAux :
    ∀ (n : Nat) (a b : Json), sizeOf a + sizeOf b ≤ n →
      nodupKeysJ a = true → nodupKeysJ b = true →
      compareStructure a b = specStructMatch a b := by
  intro n
  induction n with
  | zero =>
    intro a b h _ _
    exfalso
    have h1 : 0 < sizeOf a := by cases a <;> simp
    omega
  | succ n ih =>
    intro a b hsz ha hb
    cases a <;> cases b <;>
      try (simp [compareStructure, specStructMatch, Json.typeOf]; done)
    case arr.arr xs ys =>
      simp only [nodupKeysJ] at ha hb
      have hsz' : sizeOf xs + sizeOf ys + 2 ≤ n + 1 := by
        simp only [Json.arr.sizeOf_spec] at hsz
        omega
      have helems : ∀ (us : List Json), (∀ e ∈ us, nodupKeysJ e = true) →
          ∀ (vs : List Json), (∀ e ∈ vs, nodupKeysJ e = true) →
          sizeOf us + sizeOf vs ≤ sizeOf xs + sizeOf ys →
          compareStructureElems us vs = specStructMatchElems us vs := by
        intro us
        induction us with
        | nil =>
          intro _ vs _ _
          cases vs <;> simp [compareStructureElems, specStructMatchElems]
        | cons u ut ihu =>
          intro hu vs hv hbound
          cases vs with
          | nil => simp [compareStructureElems, specStructMatchElems]
          | cons v vt =>
            have hb1 : sizeOf u + sizeOf v ≤ n := by
              simp only [List.cons.sizeOf_spec] at hbound
              omega
            have h1 : compareStructure u v = specStructMatch u v :=
              ih u v hb1 (hu u (by simp)) (hv v (by simp))
            have h2 : compareStructureElems ut vt = specStructMatchElems ut vt := by
              refine ihu (fun e he => hu e (by simp [he])) vt
                (fun e he => hv e (by simp [he])) ?_
              simp only [List.cons.sizeOf_spec] at hbound ⊢
              omega
            simp [compareStructureElems, specStructMatchElems, h1, h2]
      simp only [compareStructure, specStructMatch]
      rw [helems xs (nodupKeysList_mem ha) ys (nodupKeysList_mem hb) (le_refl _)]
    case obj.obj xs ys =>
      simp only [nodupKeysJ, Bool.and_eq_true] at ha hb
      obtain ⟨hand1, hafields⟩ := ha
      obtain ⟨hbnd1, hbfields⟩ := hb
      have hand : (jkeys xs).Nodup := (nodupStr_iff _).mp hand1
      have hbnd : (jkeys ys).Nodup := (nodupStr_iff _).mp hbnd1
      have hsz' : sizeOf xs + sizeOf ys + 2 ≤ n + 1 := by
        simp only [Json.obj.sizeOf_spec] at hsz
        omega
      simp only [compareStructure, specStructMatch]
      by_cases hsort : sortStr (jkeys xs) = sortStr (jkeys ys)
      · have hmem : ∀ a', a' ∈ jkeys xs ↔ a' ∈ jkeys ys := (sortStr_eq_iff hand hbnd).mp hsort
        have hset : specKeySetEq (jkeys xs) (jkeys ys) = true := (specKeySetEq_iff _ _).mpr hmem
        have hsrt : (sortStr (jkeys xs) == sortStr (jkeys ys)) = true := by
          simp [hsort]
        rw [hsrt, hset]
        simp only [Bool.true_and]
        apply boolEqIff
        rw [compareStructureKeys_iff, specStructMatchFields_iff]
        constructor
        · intro h p hp
          obtain ⟨k0, v0⟩ := p
          have hk : k0 ∈ sortStr (jkeys xs) := by
            rw [(sortStr_perm _).mem_iff]
            exact mem_jkeys_iff.mpr ⟨v0, hp⟩
          have hval := h k0 hk
          have hl : jlookup xs k0 = v0 := jlookup_eq_of_mem hand hp
          rw [hl] at hval
          have hnu : nodupKeysJ v0 = true := nodupKeysFields_mem hafields (k0, v0) hp
          have hnv : nodupKeysJ (jlookup ys k0) = true := nodupKeysJ_jlookup hbfields k0
          have hszp : sizeOf v0 + sizeOf (jlookup ys k0) ≤ n := by
            have h1 := List.sizeOf_lt_of_mem hp
            have h2 := sizeOf_jlookup_le ys k0
            simp only [Prod.mk.sizeOf_spec] at h1
            omega
          rw [← ih v0 (jlookup ys k0) hszp hnu hnv]
          exact hval
        · intro h k hk
          have hkx : k ∈ jkeys xs := (sortStr_perm _).mem_iff.mp hk
          obtain ⟨v, hv⟩ := mem_jkeys_iff.mp hkx
          have hl : jlookup xs k = v := jlookup_eq_of_mem hand hv
          have hval := h (k, v) hv
          have hnu : nodupKeysJ v = true := nodupKeysFields_mem hafields (k, v) hv
          have hnv : nodupKeysJ (jlookup ys k) = true := nodupKeysJ_jlookup hbfields k
          have hszp : sizeOf v + sizeOf (jlookup ys k) ≤ n := by
            have h1 := List.sizeOf_lt_of_mem hv
            have h2 := sizeOf_jlookup_le ys k
            simp only [Prod.mk.sizeOf_spec] at h1
            omega
          rw [hl, ih v (jlookup ys k) hszp hnu hnv]
          exact hval
      · have hsrt : (sortStr (jkeys xs) == sortStr (jkeys ys)) = false := by
          simp [hsort]
        have hset : specKeySetEq (jkeys xs) (jkeys ys) = false := by
          cases hset' : specKeySetEq (jkeys xs) (jkeys ys)
          · rfl
          · exact absurd ((sortStr_eq_iff hand hbnd).mpr ((specKeySetEq_iff _ _).mp hset')) hsort
        rw [hsrt, hset]
        simp

/-- C6 counterexample: `1` and `"x"` are two non-object, non-null primitive
values, yet `compareStructure` rejects them — the strategy compares the
`typeof` of primitives, so primitives of different runtime types mismatch,
contradicting the claim that any two non-object non-null primitives match
regardless of their values. -/
theorem c6_counterexample :
    (Json.num 1).typeOf ≠ "object" ∧ (Json.str "x").typeOf ≠ "object"
    ∧ compareStructure (Json.num 1) (Json.str "x") = false := by
  refine ⟨by decide, by decide, ?_⟩
  simp [compareStructure, Json.typeOf]

/-- C6 (amended): the structure strategy coincides, on key-unique JSON values,
with the specification description amended in its primitive clause: two nulls
match; null versus non-null mismatches; two primitives match iff they have
the same runtime type (not regardless of type); arrays match iff equal length
and pairwise structurally matching elements; objects match iff exactly the
same key set with structurally matching values per key.  The claim's two
concrete examples hold as stated. -/
theorem c6_amended :
    (∀ a b : Json, nodupKeysJ a = true → nodupKeysJ b = true →
       compareStructure a b = specStructMatch a b)
    ∧ compareStructure
        (Json.obj [("a", Json.num 1), ("b", Json.arr [Json.num 1, Json.num 2])])
        (Json.obj [("a", Json.num 99), ("b", Json.arr [Json.num 7, Json.num 8])]) = true
    ∧ compareStructure
        (Json.obj [("a", Json.num 1), ("b", Json.arr [Json.num 1, Json.num 2])])
        (Json.obj [("a", Json.num 1), ("b", Json.arr [Json.num 1, Json.num 2, Json.num 3])])
        = false := by
  have hab : (['a'] : List Char) ≤ ['b'] := by decide
  refine ⟨fun a b ha hb => structEquivAux (sizeOf a + sizeOf b) a b (le_refl _) ha hb, ?_, ?_⟩
  · simp [compareStructure, compareStructureKeys, compareStructureElems, sortStr,
      List.mergeSort, List.merge, jkeys, jlookup, List.find?, Json.typeOf, hab]
  · simp [compareStructure, compareStructureKeys, compareStructureElems, sortStr,
      List.mergeSort, List.merge, jkeys, jlookup, List.find?, Json.typeOf, hab]

/-- C6 witness: the equivalence applied to a concrete pair of key-unique
values. -/
theorem c6_witness :
    compareStructure (Json.arr [Json.num 1]) (Json.arr [Json.num 2])
      = specStructMatch (Json.arr [Json.num 1]) (Json.arr [Json.num 2]) :=
  c6_amended.1 (Json.arr [Json.num 1]) (Json.arr [Json.num 2])
    (by simp [nodupKeysJ, nodupKeysList]) (by simp [nodupKeysJ, nodupKeysList])

end ClaroServices
